import Mathlib

/-!
Verification of the gval expression-language engine (Nandagopi/gval).

The Go source is shallowly embedded: Go `interface\x7b\x7d` runtime values
become the inductive `GoVal`, whose constructors mirror exactly the concrete
Go types the source distinguishes with type switches
(`[]interface\x7b\x7d`, `[][]interface\x7b\x7d`, `map[string]interface\x7b\x7d`,
`[]map[string]interface\x7b\x7d`, `bool`, `float64`, `string`, `nil`).
Go float64 is modelled as the rationals; fallible Go functions returning
`(interface\x7b\x7d, error)` become functions into products with `Option String`
errors or `Except String`.  Functions that mutate a slice in place are given
an explicit extra result holding the slice value after the call.
-/

/-- Model of a Go `interface\x7b\x7d` value, one constructor per concrete type
the source code distinguishes in its type switches. Maps are association
lists with string keys (the source switches on `map[string]interface\x7b\x7d`;
its `map[interface\x7b\x7d]interface\x7b\x7d` case has an identical body and is
subsumed by this constructor for string keys). -/
inductive GoVal where
  | vnull
  | vbool (b : Bool)
  | vfloat (q : ℚ)
  | vstr (s : String)
  | vslice (xs : List GoVal)
  | vslice2 (xs : List (List GoVal))
  | vmap (m : List (String × GoVal))
  | vmapslice (xs : List (List (String × GoVal)))
deriving Repr

mutual

/-- Model of `reflect.DeepEqual` on the embedded values: structural equality. -/
def deepEq : GoVal → GoVal → Bool
  | .vnull, .vnull => true
  | .vbool a, .vbool b => a == b
  | .vfloat a, .vfloat b => a == b
  | .vstr a, .vstr b => a == b
  | .vslice a, .vslice b => deepEqL a b
  | .vslice2 a, .vslice2 b => deepEqLL a b
  | .vmap a, .vmap b => deepEqM a b
  | .vmapslice a, .vmapslice b => deepEqML a b
  | _, _ => false
termination_by structural a => a

/-- Structural equality on lists of values. -/
def deepEqL : List GoVal → List GoVal → Bool
  | [], [] => true
  | x :: xs, y :: ys => deepEq x y && deepEqL xs ys
  | _, _ => false
termination_by structural a => a

/-- Structural equality on lists of lists of values. -/
def deepEqLL : List (List GoVal) → List (List GoVal) → Bool
  | [], [] => true
  | x :: xs, y :: ys => deepEqL x y && deepEqLL xs ys
  | _, _ => false
termination_by structural a => a

/-- Structural equality on string-keyed association lists of values. -/
def deepEqM : List (String × GoVal) → List (String × GoVal) → Bool
  | [], [] => true
  | (k, x) :: xs, (k2, y) :: ys => k == k2 && deepEq x y && deepEqM xs ys
  | _, _ => false
termination_by structural a => a

/-- Structural equality on lists of association lists of values. -/
def deepEqML : List (List (String × GoVal)) → List (List (String × GoVal)) → Bool
  | [], [] => true
  | x :: xs, y :: ys => deepEqM x y && deepEqML xs ys
  | _, _ => false
termination_by structural a => a

end

/-- Model of Go `strings.Contains` on character lists: the needle occurs as a
contiguous sublist of the haystack. -/
def hasSub : List Char → List Char → Bool
  | [], nee => nee.isEmpty
  | hay@(_ :: t), nee => nee.isPrefixOf hay || hasSub t nee

/-- Model of `strings.HasPrefix value target` (gval.go). -/
def strHasPre (value target : String) : Bool :=
  target.data.isPrefixOf value.data

/-- Model of `strings.HasSuffix value target` (gval.go). -/
def strHasSuf (value target : String) : Bool :=
  target.data.isSuffixOf value.data

/-- Model of `strings.Contains value target` (gval.go). -/
def strContains (value target : String) : Bool :=
  hasSub value.data target.data

/-- Embedding of `matchesCondition` (gval.go): checks whether `value` matches
`target` under the given operator name; unrecognized operator names default
to string equality. -/
def matchesCondition (value target oper : String) : Bool :=
  if oper == "equal" || oper == "eq" || oper == "==" then value == target
  else if oper == "notequal" || oper == "ne" || oper == "!=" then !(value == target)
  else if oper == "startswith" || oper == "sw" then strHasPre value target
  else if oper == "endswith" || oper == "ew" then strHasSuf value target
  else if oper == "contains" || oper == "co" then strContains value target
  else value == target

/-- List of the operator names `matchesCondition` recognizes explicitly. -/
def knownCondOps : List String :=
  ["equal", "eq", "==", "notequal", "ne", "!=",
   "startswith", "sw", "endswith", "ew", "contains", "co"]

/-- Scans the tail of a list for the first element satisfying `p`, carrying the
original head `h`; on a hit at position `j`, returns the matching element and
the tail with position `j` now holding `h` (the two halves of the in-place
swap `slice[0], slice[i] = slice[i], slice[0]` in cfaOperator and cfmOperator
of gval.go). -/
def swapScanAux (p : α → Bool) (h : α) : List α → Option (α × List α)
  | [] => none
  | y :: t =>
    if p y then some (y, h :: t)
    else
      match swapScanAux p h t with
      | some (m, t2) => some (m, y :: t2)
      | none => none

/-- Scans a list for the first element satisfying `p`; on a hit at index `i`,
returns the list with positions `0` and `i` swapped, mirroring the in-place
swap loop of cfaOperator and cfmOperator (gval.go). -/
def swapScan (p : α → Bool) : List α → Option (List α)
  | [] => none
  | x :: t =>
    if p x then some (x :: t)
    else
      match swapScanAux p x t with
      | some (m, t2) => some (m :: t2)
      | none => none

/-- Matches the Go type-assertion-and-compare step
`if strVal, ok := val.(string); ok ... matchesCondition(strVal, targetValue, operator)`. -/
def strMatch (target oper : String) (v : GoVal) : Bool :=
  match v with
  | .vstr s => matchesCondition s target oper
  | _ => false

/-- Model of the Go map read `val, exists := m[fieldName]` over the
association-list embedding of a Go map. -/
def lookupMap (m : List (String × GoVal)) (k : String) : Option GoVal :=
  match m with
  | [] => none
  | (k2, v) :: t => if k2 == k then some v else lookupMap t k

/-- Matches cfmOperator inner per-map check (gval.go): the field exists, is a
string and matches the condition. -/
def mapFieldMatch (field target oper : String) (m : List (String × GoVal)) : Bool :=
  match lookupMap m field with
  | some (.vstr s) => matchesCondition s target oper
  | _ => false

/-- Embedding of `cfaOperator` (gval.go lines 125-182).  The Go function
returns `(interface\x7b\x7d, error)` and mutates the left operand slice in
place; the embedding returns `(result, error, left operand after the call)`.
`b` must be a generic slice whose first two elements are strings
`[value, operator]`; otherwise `(false, nil)` with `a` untouched. -/
def cfaOperator (a b : GoVal) : GoVal × Option String × GoVal :=
  match b with
  | .vslice (bv :: bop :: _) =>
    match bv, bop with
    | .vstr targetValue, .vstr oper =>
      match a with
      | .vslice2 xss =>
        match swapScan (fun elem => elem.any (strMatch targetValue oper)) xss with
        | some xss2 => (.vbool true, none, .vslice2 xss2)
        | none => (.vbool false, none, a)
      | .vslice xs =>
        match swapScan (strMatch targetValue oper) xs with
        | some xs2 => (.vbool true, none, .vslice xs2)
        | none => (.vbool false, none, a)
      | _ => (.vbool false, none, a)
    | _, _ => (.vbool false, none, a)
  | _ => (.vbool false, none, a)

/-- Matches cfmOperator per-element check in the `[]interface\x7b\x7d` branch:
the element must itself be a map whose field matches. -/
def itemFieldMatch (field target oper : String) (item : GoVal) : Bool :=
  match item with
  | .vmap m => mapFieldMatch field target oper m
  | _ => false

/-- Embedding of `cfmOperator` (gval.go lines 187-252), with the same
state-passing convention as `cfaOperator`.  `b` must be a generic slice whose
first three elements are strings `[fieldname, operator, value]`; otherwise
`(false, nil)` with `a` untouched. -/
def cfmOperator (a b : GoVal) : GoVal × Option String × GoVal :=
  match b with
  | .vslice (bf :: bop :: bv :: _) =>
    match bf, bop, bv with
    | .vstr fieldName, .vstr oper, .vstr targetValue =>
      match a with
      | .vmapslice ms =>
        match swapScan (mapFieldMatch fieldName targetValue oper) ms with
        | some ms2 => (.vbool true, none, .vmapslice ms2)
        | none => (.vbool false, none, a)
      | .vslice xs =>
        match swapScan (itemFieldMatch fieldName targetValue oper) xs with
        | some xs2 => (.vbool true, none, .vslice xs2)
        | none => (.vbool false, none, a)
      | _ => (.vbool false, none, a)
    | _, _, _ => (.vbool false, none, a)
  | _ => (.vbool false, none, a)

lemma swapScanAux_sat {p : α → Bool} {h : α} {t : List α} {m : α} {t2 : List α}
    (hs : swapScanAux p h t = some (m, t2)) : p m = true := by
  induction t generalizing t2 with
  | nil => simp [swapScanAux] at hs
  | cons y ys ih =>
    rw [swapScanAux] at hs
    by_cases hy : p y
    · simp [hy] at hs
      rw [← hs.1]; exact hy
    · simp [hy] at hs
      cases hrec : swapScanAux p h ys with
      | none => rw [hrec] at hs; simp at hs
      | some pr =>
        obtain ⟨m2, t3⟩ := pr
        rw [hrec] at hs
        simp at hs
        rw [hs.1] at hrec
        exact ih hrec

lemma swapScan_sat {p : α → Bool} {l l2 : List α}
    (hs : swapScan p l = some l2) : ∃ m t2, l2 = m :: t2 ∧ p m = true := by
  cases l with
  | nil => simp [swapScan] at hs
  | cons x t =>
    rw [swapScan] at hs
    by_cases hx : p x
    · simp [hx] at hs
      exact ⟨x, t, hs.symm, hx⟩
    · simp [hx] at hs
      cases haux : swapScanAux p x t with
      | none => rw [haux] at hs; simp at hs
      | some pr =>
        obtain ⟨m2, t3⟩ := pr
        rw [haux] at hs
        simp at hs
        exact ⟨m2, t3, hs.symm, swapScanAux_sat haux⟩

/-- A second scan of an already-swapped list finds its match at index 0 and
leaves the list unchanged. -/
lemma swapScan_idem {p : α → Bool} {l l2 : List α}
    (hs : swapScan p l = some l2) : swapScan p l2 = some l2 := by
  obtain ⟨m, t2, rfl, hm⟩ := swapScan_sat hs
  rw [swapScan]
  simp [hm]

/-- C1 counterexample: the cfa operator, applied to the slice
`["b", "a"]` with argument list `["a", "equal"]`, returns true and mutates
the operand slice to `["a", "b"]`, so invoking a compiled Evaluable is not
free of observable side effects on the input value. -/
theorem c1_cfa_mutates_input :
    cfaOperator (.vslice [.vstr "b", .vstr "a"]) (.vslice [.vstr "a", .vstr "equal"])
      = (.vbool true, none, .vslice [.vstr "a", .vstr "b"])
    ∧ GoVal.vslice [.vstr "a", .vstr "b"] ≠ GoVal.vslice [.vstr "b", .vstr "a"] := by
  refine ⟨rfl, ?_⟩
  intro h
  simp at h

/-- C1 amended: re-evaluating cfa or cfm on the same (possibly already
mutated) input yields the identical full outcome: the second call returns the
same result value and error and leaves the operand slice exactly as the first
call left it, because a matching element swapped to the front is found again
at index 0. -/
theorem c1_cfa_cfm_second_eval_fixed (a b : GoVal) :
    cfaOperator (cfaOperator a b).2.2 b = cfaOperator a b
    ∧ cfmOperator (cfmOperator a b).2.2 b = cfmOperator a b := by
  constructor
  · cases b
    case vslice bs =>
      match bs with
      | [] => rfl
      | [_] => rfl
      | bv :: bop :: rest =>
        cases bv
        case vstr tv =>
          cases bop
          case vstr op =>
            cases a
            case vslice xs =>
              simp only [cfaOperator]
              cases h : swapScan (strMatch tv op) xs with
              | none => simp [cfaOperator, h]
              | some xs2 => simp [cfaOperator, h, swapScan_idem h]
            case vslice2 xss =>
              simp only [cfaOperator]
              cases h : swapScan (fun elem => elem.any (strMatch tv op)) xss with
              | none => simp [cfaOperator, h]
              | some xss2 => simp [cfaOperator, h, swapScan_idem h]
            all_goals rfl
          all_goals rfl
        all_goals rfl
    all_goals rfl
  · cases b
    case vslice bs =>
      match bs with
      | [] => rfl
      | [_] => rfl
      | [_, _] => rfl
      | bf :: bop :: bv :: rest =>
        cases bf
        case vstr fn =>
          cases bop
          case vstr op =>
            cases bv
            case vstr tv =>
              cases a
              case vslice xs =>
                simp only [cfmOperator]
                cases h : swapScan (itemFieldMatch fn tv op) xs with
                | none => simp [cfmOperator, h]
                | some xs2 => simp [cfmOperator, h, swapScan_idem h]
              case vmapslice ms =>
                simp only [cfmOperator]
                cases h : swapScan (mapFieldMatch fn tv op) ms with
                | none => simp [cfmOperator, h]
                | some ms2 => simp [cfmOperator, h, swapScan_idem h]
              all_goals rfl
            all_goals rfl
          all_goals rfl
        all_goals rfl
    all_goals rfl

/-- C1 witness for the amended theorem at a concrete mutating input. -/
theorem c1_witness :
    cfaOperator
      (cfaOperator (.vslice [.vstr "b", .vstr "a"]) (.vslice [.vstr "a", .vstr "equal"])).2.2
      (.vslice [.vstr "a", .vstr "equal"])
      = cfaOperator (.vslice [.vstr "b", .vstr "a"]) (.vslice [.vstr "a", .vstr "equal"]) :=
  (c1_cfa_cfm_second_eval_fixed (.vslice [.vstr "b", .vstr "a"])
    (.vslice [.vstr "a", .vstr "equal"])).1

/-- C10: cfa and cfm never return an error; a right operand that is not a
generic slice, or has too few elements, or whose leading elements are not
strings, and a left operand of an unsupported shape or with no matching
element, all yield `(false, nil)` with the left operand untouched; an
unrecognized operator name in the argument list is treated as string
equality. -/
theorem c10_cfa_cfm_total (a b nb : GoVal) (hnb : ∀ xs, nb ≠ .vslice xs)
    (bs cs : List GoVal) (hbs : bs.length < 2) (hcs : cs.length < 3)
    (bv : GoVal) (hbv : ∀ s, bv ≠ .vstr s) (rest : List GoVal)
    (na : GoVal) (hna1 : ∀ xs, na ≠ .vslice xs) (hna2 : ∀ xs, na ≠ .vslice2 xs)
    (v t : String) (xs : List GoVal) (hns : swapScan (strMatch v t) xs = none)
    (oper : String) (ho : oper ∉ knownCondOps) (s u : String) :
    (cfaOperator a b).2.1 = none
    ∧ (cfmOperator a b).2.1 = none
    ∧ cfaOperator a nb = (.vbool false, none, a)
    ∧ cfmOperator a nb = (.vbool false, none, a)
    ∧ cfaOperator a (.vslice bs) = (.vbool false, none, a)
    ∧ cfmOperator a (.vslice cs) = (.vbool false, none, a)
    ∧ cfaOperator a (.vslice (bv :: rest)) = (.vbool false, none, a)
    ∧ cfaOperator na (.vslice (.vstr v :: .vstr t :: rest)) = (.vbool false, none, na)
    ∧ cfaOperator (.vslice xs) (.vslice (.vstr v :: .vstr t :: rest))
        = (.vbool false, none, .vslice xs)
    ∧ matchesCondition s u oper = (s == u) := by
  refine ⟨?_, ?_, ?_, ?_, ?_, ?_, ?_, ?_, ?_, ?_⟩
  · cases b
    case vslice l =>
      match l with
      | [] => rfl
      | [_] => rfl
      | x :: y :: r =>
        cases x <;> cases y <;> simp only [cfaOperator] <;>
          first
            | rfl
            | (cases a <;>
                first
                  | rfl
                  | (dsimp only; split <;> rfl))
    all_goals rfl
  · cases b
    case vslice l =>
      match l with
      | [] => rfl
      | [_] => rfl
      | [_, _] => rfl
      | x :: y :: z :: r =>
        cases x <;> cases y <;> cases z <;> simp only [cfmOperator] <;>
          first
            | rfl
            | (cases a <;>
                first
                  | rfl
                  | (dsimp only; split <;> rfl))
    all_goals rfl
  · cases nb
    case vslice l => exact absurd rfl (hnb l)
    all_goals rfl
  · cases nb
    case vslice l => exact absurd rfl (hnb l)
    all_goals rfl
  · match bs, hbs with
    | [], _ => rfl
    | [_], _ => rfl
  · match cs, hcs with
    | [], _ => rfl
    | [_], _ => rfl
    | [_, _], _ => rfl
  · cases rest with
    | nil =>
      cases bv
      case vstr s2 => exact absurd rfl (hbv s2)
      all_goals rfl
    | cons bop r =>
      cases bv
      case vstr s2 => exact absurd rfl (hbv s2)
      all_goals rfl
  · cases na
    case vslice l => exact absurd rfl (hna1 l)
    case vslice2 l => exact absurd rfl (hna2 l)
    all_goals rfl
  · simp only [cfaOperator, hns]
  · simp only [knownCondOps, List.mem_cons, List.not_mem_nil, or_false] at ho
    push_neg at ho
    obtain ⟨h1, h2, h3, h4, h5, h6, h7, h8, h9, h10, h11, h12⟩ := ho
    simp [matchesCondition, h1, h2, h3, h4, h5, h6, h7, h8, h9, h10, h11, h12]

/-- C10 witness at concrete inputs discharging every hypothesis. -/
theorem c10_witness :
    (cfaOperator .vnull .vnull).2.1 = none
    ∧ (cfmOperator .vnull .vnull).2.1 = none
    ∧ cfaOperator .vnull .vnull = (.vbool false, none, .vnull)
    ∧ cfmOperator .vnull .vnull = (.vbool false, none, .vnull)
    ∧ cfaOperator .vnull (.vslice []) = (.vbool false, none, .vnull)
    ∧ cfmOperator .vnull (.vslice []) = (.vbool false, none, .vnull)
    ∧ cfaOperator .vnull (.vslice [.vnull]) = (.vbool false, none, .vnull)
    ∧ cfaOperator .vnull (.vslice [.vstr "x", .vstr "eq"]) = (.vbool false, none, .vnull)
    ∧ cfaOperator (.vslice []) (.vslice [.vstr "x", .vstr "eq"])
        = (.vbool false, none, .vslice [])
    ∧ matchesCondition "p" "q" "zzz" = ("p" == "q") :=
  c10_cfa_cfm_total .vnull .vnull .vnull (fun _ h => GoVal.noConfusion h)
    [] [] (by decide) (by decide)
    .vnull (fun _ h => GoVal.noConfusion h) []
    .vnull (fun _ h => GoVal.noConfusion h) (fun _ h => GoVal.noConfusion h)
    "x" "eq" [] rfl
    "zzz" (by decide) "p" "q"

/-- Model of a Go `context.Context` as consumed by compiled evaluators: only
its cancellation state is observable to them. -/
structure Ctx where
  cancelled : Bool

/-- Model of the `Evaluable` function type: `(context, parameter) -> (value, error)`. -/
abbrev EvalF := Ctx → GoVal → Except String GoVal

/-- Model of `p.Const`: an evaluator returning a fixed value. -/
def constE (g : GoVal) : EvalF := fun _ _ => .ok g

/-- Combined model of the checks `x == nil` and `reflect.ValueOf(x).IsZero()`
used by parseIf (parse.go) and the `??` operator (gval.go): true exactly on
nil and on the zero value of the operand type.  Non-nil slice and map values
are never zero under `reflect.Value.IsZero`; nil-valued Go slices are not
distinguished by this embedding. -/
def isNilOrZero : GoVal → Bool
  | .vnull => true
  | .vbool b => !b
  | .vfloat q => q == 0
  | .vstr s => s == ""
  | _ => false

/-- Modelled from the spec: `convertToBool` lives in code of this repository
that is not under src (evaluable.go); per the spec and the PropositionalLogic
doc comment, booleans convert directly, numbers other than 0 are true and 0
is false, and the strings "true"/"TRUE" and "false"/"FALSE" convert to the
corresponding boolean; everything else fails. -/
def convertToBool : GoVal → Option Bool
  | .vbool b => some b
  | .vfloat q => some (!(q == 0))
  | .vstr "true" => some true
  | .vstr "TRUE" => some true
  | .vstr "false" => some false
  | .vstr "FALSE" => some false
  | _ => none

/-- Digit-list accumulator for decimal parsing. -/
def digitsNatAux : List Char → Nat → Option Nat
  | [], acc => some acc
  | c :: t, acc =>
    if c.isDigit then digitsNatAux t (acc * 10 + (c.toNat - 48)) else none

/-- Nonempty all-digit decimal numeral. -/
def digitsNat : List Char → Option Nat
  | [] => none
  | cs => digitsNatAux cs 0

/-- Model of `strconv.Atoi` on the forms relevant here: an optional sign
followed by a nonempty digit string (overflow of the 64-bit range is not
modelled). -/
def atoiInt (s : String) : Option Int :=
  match s.data with
  | [] => none
  | '-' :: t => (digitsNat t).map (fun n => -(n : Int))
  | '+' :: t => (digitsNat t).map (fun n => (n : Int))
  | cs => (digitsNat cs).map (fun n => (n : Int))

/-- Value of a digit list as a rational. -/
def digitsVal (ds : List Char) : ℚ :=
  ds.foldl (fun acc c => acc * 10 + ((c.toNat - 48 : ℕ) : ℚ)) 0

/-- Unsigned decimal float body: digits with an optional fractional part
(exponent forms of `strconv.ParseFloat` are not modelled; no claim uses them). -/
def parseUFloat (cs : List Char) : Option ℚ :=
  let ip := cs.takeWhile Char.isDigit
  let rest := cs.dropWhile Char.isDigit
  match rest with
  | [] => if ip.isEmpty then none else some (digitsVal ip)
  | '.' :: frac =>
    if frac.all Char.isDigit && !(ip.isEmpty && frac.isEmpty) then
      some (digitsVal ip + digitsVal frac / ((10 : ℚ) ^ frac.length))
    else none
  | _ => none

/-- Modelled from the spec: `convertToFloat` lives in code of this repository
that is not under src (evaluable.go); per the spec, float and integer inputs
convert directly and strings are parsed as floats; other types fail. -/
def convertToFloat : GoVal → Option ℚ
  | .vfloat q => some q
  | .vstr s =>
    match s.data with
    | '-' :: t => (parseUFloat t).map Neg.neg
    | '+' :: t => parseUFloat t
    | cs => parseUFloat cs
  | _ => none

/-- Modelled from the spec: the short-circuit dispatch for infix operators
lives in code of this repository that is not under src (operator.go); per
spec section 4.3, the left operand is evaluated first, the predicate inspects
it and either returns a decisive result with the flag set (the right operand
is then never evaluated) or lets the eager binary operator run on a fresh
evaluation of both sides. -/
def scDispatch (sc : GoVal → GoVal × Bool) (op : GoVal → GoVal → Except String GoVal)
    (l r : EvalF) : EvalF := fun c v =>
  match l c v with
  | .error e => .error e
  | .ok a =>
    match sc a with
    | (res, true) => .ok res
    | (_, false) =>
      match l c v, r c v with
      | .ok a2, .ok b => op a2 b
      | .error e, _ => .error e
      | .ok _, .error e => .error e

/-- Embedding of the `&&` short-circuit predicate
`func(a interface\x7b\x7d) (interface\x7b\x7d, bool) \x7b return false, a == false \x7d`
(gval.go line 422). -/
def andSC (a : GoVal) : GoVal × Bool :=
  (.vbool false, match a with | .vbool false => true | _ => false)

/-- Embedding of the `||` short-circuit predicate (gval.go line 424):
decisive result true exactly when the left operand is the boolean true. -/
def orSC (a : GoVal) : GoVal × Bool :=
  (.vbool true, match a with | .vbool true => true | _ => false)

/-- Embedding of the `??` short-circuit predicate (gval.go lines 276-279):
returns the left operand, decisively when it is non-nil and not the zero
value of its type. -/
def coalesceSC (a : GoVal) : GoVal × Bool :=
  (a, match a with | .vnull => false | _ => !isNilOrZero a)

/-- Modelled from the spec: the generic boolean coercion wrapper of
`InfixBoolOperator` (language.go, not under src); both operands are coerced
to bool, a coercion failure is a typed error. -/
def boolCoerceOp (f : Bool → Bool → Bool) (a b : GoVal) : Except String GoVal :=
  match convertToBool a, convertToBool b with
  | some x, some y => .ok (.vbool (f x y))
  | _, _ => .error "unexpected operand expected bool"

/-- Embedding of the eager `??` operator (gval.go lines 280-285): the right
operand when the left is nil or its zero value, the left otherwise. -/
def coalesceOp (a b : GoVal) : Except String GoVal :=
  .ok (match a with
       | .vnull => b
       | _ => if isNilOrZero a then b else a)

/-- C3: with a left operand evaluating to false, `&&` yields false without
evaluating the right operand (for every right evaluable, including failing
ones); dually `||` with a true left operand yields true; `??` returns the
left operand without evaluating the right when it is non-nil and non-zero,
and otherwise returns the right operand value. -/
theorem c3_short_circuit (r : EvalF) (c : Ctx) (v : GoVal) (a b : GoVal)
    (ha : a ≠ .vnull) (hz : isNilOrZero a = false) :
    scDispatch andSC (boolCoerceOp and) (constE (.vbool false)) r c v = .ok (.vbool false)
    ∧ scDispatch orSC (boolCoerceOp or) (constE (.vbool true)) r c v = .ok (.vbool true)
    ∧ scDispatch coalesceSC coalesceOp (constE a) r c v = .ok a
    ∧ scDispatch coalesceSC coalesceOp (constE .vnull) (constE b) c v = .ok b
    ∧ scDispatch coalesceSC coalesceOp (constE (.vbool false)) (constE b) c v = .ok b := by
  refine ⟨rfl, rfl, ?_, rfl, rfl⟩
  cases a
  case vnull => exact absurd rfl ha
  all_goals
    simp only [isNilOrZero] at hz
    simp [scDispatch, constE, coalesceSC, isNilOrZero, hz]

/-- C3 witness: concrete instantiation with a right operand that would error
if it were evaluated. -/
theorem c3_witness :
    scDispatch andSC (boolCoerceOp and) (constE (.vbool false))
        (fun _ _ => .error "integer divide by zero") ⟨false⟩ .vnull = .ok (.vbool false)
    ∧ scDispatch orSC (boolCoerceOp or) (constE (.vbool true))
        (fun _ _ => .error "integer divide by zero") ⟨false⟩ .vnull = .ok (.vbool true)
    ∧ scDispatch coalesceSC coalesceOp (constE (.vbool true))
        (fun _ _ => .error "integer divide by zero") ⟨false⟩ .vnull = .ok (.vbool true)
    ∧ scDispatch coalesceSC coalesceOp (constE .vnull) (constE (.vfloat 1)) ⟨false⟩ .vnull
        = .ok (.vfloat 1)
    ∧ scDispatch coalesceSC coalesceOp (constE (.vbool false)) (constE (.vfloat 1)) ⟨false⟩ .vnull
        = .ok (.vfloat 1) :=
  c3_short_circuit (fun _ _ => .error "integer divide by zero") ⟨false⟩ .vnull
    (.vbool true) (.vfloat 1) (fun h => GoVal.noConfusion h) rfl

/-- Embedding of `MissingFieldBehavior` (tolerant.go lines 12-21). -/
inductive MissingFieldBehavior where
  | errorOnMissingField
  | falseOnMissingField
  | nilOnMissingField
deriving DecidableEq, Repr

/-- Model of `strings.Join(keyPath, ".")`. -/
def joinDots : List String → String
  | [] => ""
  | [k] => k
  | k :: t => k ++ "." ++ joinDots t

/-- Embedding of `handleMissingField` (tolerant.go lines 72-81). -/
def handleMissingField (behavior : MissingFieldBehavior) (keyPath : List String) :
    Except String GoVal :=
  match behavior with
  | .falseOnMissingField => .ok (.vbool false)
  | .nilOnMissingField => .ok .vnull
  | .errorOnMissingField => .error ("unknown parameter " ++ joinDots keyPath)

/-- Embedding of the selector loop in `WithMissingFieldBehavior`
(tolerant.go lines 26-68); `done` accumulates the keys walked so far, so that
`done ++ [k]` plays the role of `keys[:i+1]`.  The `Selector` capability case
is not modelled (no embedded value implements it) and the trailing Go default
case calls `reflectSelect`, which only resolves struct fields and therefore
fails on every remaining embedded shape. -/
def missingFieldLoop (behavior : MissingFieldBehavior) (done : List String) :
    List String → GoVal → Except String GoVal
  | [], v => .ok v
  | k :: rest, v =>
    match v with
    | .vmap o =>
      match lookupMap o k with
      | some val => missingFieldLoop behavior (done ++ [k]) rest val
      | none => handleMissingField behavior (done ++ [k])
    | .vslice o =>
      match atoiInt k with
      | some idx =>
        if 0 ≤ idx ∧ idx.toNat < o.length then
          missingFieldLoop behavior (done ++ [k]) rest (o.getD idx.toNat .vnull)
        else handleMissingField behavior (done ++ [k])
      | none => handleMissingField behavior (done ++ [k])
    | _ => handleMissingField behavior (done ++ [k])

/-- The variable selector produced by `WithMissingFieldBehavior` (tolerant.go),
applied to already-evaluated string keys (`path.EvalStrings`). -/
def missingFieldSelect (behavior : MissingFieldBehavior) (keys : List String)
    (param : GoVal) : Except String GoVal :=
  missingFieldLoop behavior [] keys param

/-- The mixed-shape input of testable property C7:
`a` maps to a map whose `b` holds the list `[10, 20]`. -/
def c7Input : GoVal :=
  .vmap [("a", .vmap [("b", .vslice [.vfloat 10, .vfloat 20])])]

/-- C7: selector resolution walks the key path left to right; on the input
with a.b = [10, 20], path a.b.1 yields 20; path a.b.5 is out of bounds and
under the strict policy fails with an error naming the dotted path a.b.5,
while the permissive policies substitute false or nil; and a list-indexing
step succeeds exactly when the key parses as a non-negative integer within
bounds. -/
theorem c7_selector_resolution :
    missingFieldSelect .errorOnMissingField ["a", "b", "1"] c7Input = .ok (.vfloat 20)
    ∧ missingFieldSelect .errorOnMissingField ["a", "b", "5"] c7Input
        = .error "unknown parameter a.b.5"
    ∧ missingFieldSelect .falseOnMissingField ["a", "b", "5"] c7Input = .ok (.vbool false)
    ∧ missingFieldSelect .nilOnMissingField ["a", "b", "5"] c7Input = .ok .vnull
    ∧ ∀ (k : String) (xs : List GoVal) (done : List String),
        (missingFieldLoop .errorOnMissingField done [k] (.vslice xs)).isOk
          ↔ ∃ i, atoiInt k = some i ∧ 0 ≤ i ∧ i.toNat < xs.length := by
  refine ⟨rfl, rfl, rfl, rfl, ?_⟩
  intro k xs done
  simp only [missingFieldLoop]
  cases h : atoiInt k with
  | none => simp [h, handleMissingField, Except.isOk, Except.toBool]
  | some i =>
    by_cases hc : 0 ≤ i ∧ i.toNat < xs.length
    · simp [hc, missingFieldLoop, Except.isOk, Except.toBool, hc.1, hc.2]
    · simp [hc, handleMissingField, Except.isOk, Except.toBool]

/-- Abstract syntax of the compiled evaluators needed here; each constructor
stands for the closure the corresponding parse function builds at parse time:
`lit` for `p.Const`, `ternary` for the closure returned by parseIf
(parse.go lines 264-273), `arr` for the closure returned by parseJSONArray
(parse.go lines 289-300), and `varSel` for the selector closure of
`WithMissingFieldBehavior` (tolerant.go). -/
inductive Expr where
  | lit (g : GoVal)
  | ternary (cond thn els : Expr)
  | arr (xs : List Expr)
  | varSel (behavior : MissingFieldBehavior) (keys : List String)
deriving Repr

mutual

/-- Evaluation of a compiled expression, mirroring each closure body from the
source: the ternary closure evaluates the condition, propagates its error,
and evaluates exactly the branch selected by the nil-or-zero test; the array
closure evaluates the elements in order, propagating the first error.  The
context is passed down exactly as the Go closures pass `c`; none of them
inspects it. -/
def evalExpr : Expr → EvalF
  | .lit g => fun _ _ => .ok g
  | .ternary e a b => fun c v =>
    match evalExpr e c v with
    | .error err => .error err
    | .ok x => if isNilOrZero x then evalExpr b c v else evalExpr a c v
  | .arr es => fun c v =>
    match evalList es c v with
    | .error err => .error err
    | .ok vs => .ok (.vslice vs)
  | .varSel behavior keys => fun _ v => missingFieldSelect behavior keys v
termination_by structural e => e

/-- Element-wise evaluation of the array-literal sub-evaluators, first error
propagated (the loop body of the parseJSONArray closure). -/
def evalList : List Expr → Ctx → GoVal → Except String (List GoVal)
  | [], _, _ => .ok []
  | e :: es, c, v =>
    match evalExpr e c v with
    | .error err => .error err
    | .ok x =>
      match evalList es c v with
      | .error err => .error err
      | .ok xs => .ok (x :: xs)
termination_by structural e => e

end

/-- The token the scanner yields right after the then-branch of a `?`
expression, as parseIf (parse.go lines 254-263) distinguishes it: a colon
(followed by a parsed else-expression), end of input, or anything else. -/
inductive NextTok where
  | colonTok (els : Expr)
  | eofTok
  | otherTok
deriving Repr

/-- Embedding of the branching structure of `parseIf` (parse.go lines
248-274) after the then-branch `a` has been parsed: on `:` the parsed
else-expression is used, on end of input the else-branch defaults to the
constant null, and on any other token parsing fails. -/
def parseIf (e a : Expr) : NextTok → Except String Expr
  | .colonTok b => .ok (.ternary e a b)
  | .eofTok => .ok (.ternary e a (.lit .vnull))
  | .otherTok => .error "unexpected token while parsing ternary, expected <> ? <> : <>"

/-- C4 counterexample: when the `?` clause is followed by a token that is
neither `:` nor end of input (for example the closing parenthesis in
`(1 ? 2)`), parseIf returns a parse error rather than defaulting the else
branch to a constant null. -/
theorem c4_nonColon_is_parse_error :
    parseIf (.lit (.vfloat 1)) (.lit (.vfloat 2)) .otherTok
        ≠ .ok (.ternary (.lit (.vfloat 1)) (.lit (.vfloat 2)) (.lit .vnull))
    ∧ (parseIf (.lit (.vfloat 1)) (.lit (.vfloat 2)) .otherTok).isOk = false := by
  refine ⟨?_, rfl⟩
  intro h
  exact Except.noConfusion h

/-- C4 amended: the ternary evaluates only the selected branch, choosing the
else branch exactly when the condition is nil or its type zero value;
`1 ? 2 : 3` is 2 and `0 ? 2 : 3` is 3; the else branch defaults to a constant
null only when the `?` clause is followed by end of input (any other
non-colon token is a parse error), so `1 ? 2` is 2 and `0 ? 2` is null. -/
theorem c4_ternary_selected_branch (e a b : Expr) (c : Ctx) (v : GoVal) (x : GoVal)
    (hx : evalExpr e c v = .ok x) :
    parseIf e a .eofTok = .ok (.ternary e a (.lit .vnull))
    ∧ (∀ b2, parseIf e a (.colonTok b2) = .ok (.ternary e a b2))
    ∧ evalExpr (.ternary e a b) c v
        = (if isNilOrZero x then evalExpr b c v else evalExpr a c v)
    ∧ evalExpr (.ternary (.lit (.vfloat 1)) (.lit (.vfloat 2)) (.lit (.vfloat 3))) c v
        = .ok (.vfloat 2)
    ∧ evalExpr (.ternary (.lit (.vfloat 0)) (.lit (.vfloat 2)) (.lit (.vfloat 3))) c v
        = .ok (.vfloat 3)
    ∧ evalExpr (.ternary (.lit (.vfloat 1)) (.lit (.vfloat 2)) (.lit .vnull)) c v
        = .ok (.vfloat 2)
    ∧ evalExpr (.ternary (.lit (.vfloat 0)) (.lit (.vfloat 2)) (.lit .vnull)) c v
        = .ok .vnull
    ∧ evalExpr (.ternary (.lit (.vfloat 1)) (.lit (.vfloat 2))
          (.varSel .errorOnMissingField ["nope"])) c v = .ok (.vfloat 2) := by
  refine ⟨rfl, fun _ => rfl, ?_, rfl, rfl, rfl, rfl, rfl⟩
  simp [evalExpr, hx]

/-- C4 witness at a concrete condition value. -/
theorem c4_witness :
    evalExpr (.ternary (.lit (.vfloat 1)) (.lit (.vfloat 2)) (.lit (.vfloat 3)))
        ⟨false⟩ .vnull
      = (if isNilOrZero (.vfloat 1)
         then evalExpr (.lit (.vfloat 3)) ⟨false⟩ .vnull
         else evalExpr (.lit (.vfloat 2)) ⟨false⟩ .vnull) :=
  (c4_ternary_selected_branch (.lit (.vfloat 1)) (.lit (.vfloat 2)) (.lit (.vfloat 3))
    ⟨false⟩ .vnull (.vfloat 1) rfl).2.2.1

/-- C5 counterexample: a compiled non-trivial expression (the array literal
`[1, 2]`), invoked with an already-cancelled context, runs to completion and
produces its value instead of returning a cancellation error. -/
theorem c5_cancelled_ctx_ignored :
    evalExpr (.arr [.lit (.vfloat 1), .lit (.vfloat 2)]) ⟨true⟩ .vnull
      = .ok (.vslice [.vfloat 1, .vfloat 2]) := rfl

lemma evalList_lits (vs : List GoVal) (c : Ctx) (v : GoVal) :
    evalList (vs.map .lit) c v = .ok vs := by
  induction vs with
  | nil => rfl
  | cons x t ih => simp [evalList, evalExpr, ih]

/-- C5 amended: the compiled evaluators pass the cancellation handle down to
sub-evaluations but never inspect it; evaluation proceeds normally for any
context, cancelled or not, so no cancellation error is ever produced by the
evaluators themselves. -/
theorem c5_evaluators_never_check_ctx (vs : List GoVal) (g h1 h2 : GoVal)
    (c : Ctx) (v : GoVal) :
    evalExpr (.arr (vs.map .lit)) c v = .ok (.vslice vs)
    ∧ evalExpr (.ternary (.lit g) (.lit h1) (.lit h2)) c v
        = .ok (if isNilOrZero g then h2 else h1) := by
  constructor
  · simp [evalExpr, evalList_lits]
  · cases hg : isNilOrZero g <;> simp [evalExpr, hg]

/-- Matches the Go interface comparison `x == nil`. -/
def isNilV : GoVal → Bool
  | .vnull => true
  | _ => false

/-- Matches the Go interface comparison `x == false` (true only for the
boolean value false). -/
def isFalseV : GoVal → Bool
  | .vbool false => true
  | _ => false

/-- Embedding of the value-level comparison performed by the TolerantFull
`==` override (tolerant.go lines 132-185) once both operands are evaluated:
nil equals false, nil equals nil, false equals false; otherwise any nil or
false operand compares unequal; then numeric, string and boolean
comparisons, with `reflect.DeepEqual` as the final fallback. -/
def enhancedEqVal (aVal bVal : GoVal) : GoVal :=
  if (isNilV aVal && isFalseV bVal) || (isFalseV aVal && isNilV bVal) then .vbool true
  else if isNilV aVal && isNilV bVal then .vbool true
  else if isFalseV aVal && isFalseV bVal then .vbool true
  else if isNilV aVal || isNilV bVal || isFalseV aVal || isFalseV bVal then .vbool false
  else
    match convertToFloat aVal, convertToFloat bVal with
    | some x, some y => .vbool (x == y)
    | _, _ =>
      match aVal, bVal with
      | .vstr s, .vstr t => .vbool (s == t)
      | _, _ =>
        match aVal, bVal with
        | .vbool x, .vbool y => .vbool (x == y)
        | _, _ => .vbool (deepEq aVal bVal)

/-- Embedding of the value-level comparison performed by the TolerantFull
`!=` override (tolerant.go lines 187-239) once both operands are evaluated. -/
def enhancedNeqVal (aVal bVal : GoVal) : GoVal :=
  if (isNilV aVal && isFalseV bVal) || (isFalseV aVal && isNilV bVal) then .vbool false
  else if isNilV aVal && isNilV bVal then .vbool false
  else if isFalseV aVal && isFalseV bVal then .vbool false
  else if (isNilV aVal && !isNilV bVal) || (isNilV bVal && !isNilV aVal)
       || (isFalseV aVal && !isFalseV bVal) || (isFalseV bVal && !isFalseV aVal) then
    .vbool true
  else
    match convertToFloat aVal, convertToFloat bVal with
    | some x, some y => .vbool (!(x == y))
    | _, _ =>
      match aVal, bVal with
      | .vstr s, .vstr t => .vbool (!(s == t))
      | _, _ =>
        match aVal, bVal with
        | .vbool x, .vbool y => .vbool (!(x == y))
        | _, _ => .vbool (!deepEq aVal bVal)

/-- The full `InfixEvalOperator` closure for the TolerantFull `==` override:
evaluates the left then the right unevaluated operand, propagating errors,
then compares the values. -/
def enhancedEqOp (a b : EvalF) : EvalF := fun c v =>
  match a c v with
  | .error e => .error e
  | .ok x =>
    match b c v with
    | .error e => .error e
    | .ok y => .ok (enhancedEqVal x y)

/-- The full `InfixEvalOperator` closure for the TolerantFull `!=` override. -/
def enhancedNeqOp (a b : EvalF) : EvalF := fun c v =>
  match a c v with
  | .error e => .error e
  | .ok x =>
    match b c v with
    | .error e => .error e
    | .ok y => .ok (enhancedNeqVal x y)

/-- C9: under the TolerantFull overriding equality operators, whenever one
operand evaluates to nil and the other to boolean false, `==` yields true and
`!=` yields false, for every context and input; nil == nil and
false == false are also true; so TolerantFull equality does not distinguish a
missing field (substituted as false) from nil. -/
theorem c9_tolerant_nil_false_equal (a b : EvalF) (c : Ctx) (v : GoVal)
    (hx : a c v = .ok .vnull) (hy : b c v = .ok (.vbool false)) :
    enhancedEqOp a b c v = .ok (.vbool true)
    ∧ enhancedNeqOp a b c v = .ok (.vbool false)
    ∧ enhancedEqOp b a c v = .ok (.vbool true)
    ∧ enhancedNeqOp b a c v = .ok (.vbool false)
    ∧ enhancedEqVal .vnull .vnull = .vbool true
    ∧ enhancedEqVal (.vbool false) (.vbool false) = .vbool true
    ∧ enhancedNeqVal .vnull .vnull = .vbool false
    ∧ enhancedNeqVal (.vbool false) (.vbool false) = .vbool false := by
  refine ⟨?_, ?_, ?_, ?_, rfl, rfl, rfl, rfl⟩ <;>
    simp [enhancedEqOp, enhancedNeqOp, hx, hy, enhancedEqVal, enhancedNeqVal,
      isNilV, isFalseV]

/-- C9 witness: concrete constant evaluables for nil and false. -/
theorem c9_witness :
    enhancedEqOp (constE .vnull) (constE (.vbool false)) ⟨false⟩ .vnull
        = .ok (.vbool true)
    ∧ enhancedNeqOp (constE .vnull) (constE (.vbool false)) ⟨false⟩ .vnull
        = .ok (.vbool false)
    ∧ enhancedEqOp (constE (.vbool false)) (constE .vnull) ⟨false⟩ .vnull
        = .ok (.vbool true)
    ∧ enhancedNeqOp (constE (.vbool false)) (constE .vnull) ⟨false⟩ .vnull
        = .ok (.vbool false)
    ∧ enhancedEqVal .vnull .vnull = .vbool true
    ∧ enhancedEqVal (.vbool false) (.vbool false) = .vbool true
    ∧ enhancedNeqVal .vnull .vnull = .vbool false
    ∧ enhancedNeqVal (.vbool false) (.vbool false) = .vbool false :=
  c9_tolerant_nil_false_equal (constE .vnull) (constE (.vbool false)) ⟨false⟩ .vnull rfl rfl

/-- Rendering of the Go `%T` verb for the embedded value shapes. -/
def goTypeName : GoVal → String
  | .vnull => "<nil>"
  | .vbool _ => "bool"
  | .vfloat _ => "float64"
  | .vstr _ => "string"
  | .vslice _ => "[]interface \x7b\x7d"
  | .vslice2 _ => "[][]interface \x7b\x7d"
  | .vmap _ => "map[string]interface \x7b\x7d"
  | .vmapslice _ => "[]map[string]interface \x7b\x7d"

/-- Embedding of `inArray` (parse.go lines 235-246): the right operand must
be a generic slice, in which case the result is whether some element is
`reflect.DeepEqual` to the left operand; any other right operand is a type
error. -/
def inArray (a b : GoVal) : Except String GoVal :=
  match b with
  | .vslice col => .ok (.vbool (col.any (fun value => deepEq a value)))
  | _ =>
    .error ("expected type []interface\x7b\x7d for in operator but got " ++ goTypeName b)

/-- C8: `3 in [1,2,3]` is true and `4 in [1,2,3]` is false; in general, for a
slice right operand the result is true iff some element is deep-structurally
equal to the left operand, and a non-slice right operand is a type error. -/
theorem c8_in_membership (a nb : GoVal) (hnb : ∀ xs, nb ≠ .vslice xs)
    (xs : List GoVal) :
    inArray (.vfloat 3) (.vslice [.vfloat 1, .vfloat 2, .vfloat 3]) = .ok (.vbool true)
    ∧ inArray (.vfloat 4) (.vslice [.vfloat 1, .vfloat 2, .vfloat 3]) = .ok (.vbool false)
    ∧ inArray a (.vslice xs) = .ok (.vbool (xs.any (fun x => deepEq a x)))
    ∧ (inArray a (.vslice xs) = .ok (.vbool true) ↔ ∃ x ∈ xs, deepEq a x = true)
    ∧ (inArray a nb).isOk = false := by
  refine ⟨rfl, rfl, rfl, ?_, ?_⟩
  · simp [inArray, List.any_eq_true]
  · cases nb
    case vslice l => exact absurd rfl (hnb l)
    all_goals rfl

/-- C8 witness with a non-slice right operand. -/
theorem c8_witness :
    inArray (.vfloat 3) (.vslice [.vfloat 1, .vfloat 2, .vfloat 3]) = .ok (.vbool true)
    ∧ inArray (.vfloat 4) (.vslice [.vfloat 1, .vfloat 2, .vfloat 3]) = .ok (.vbool false)
    ∧ inArray (.vfloat 3) (.vslice []) = .ok (.vbool (List.any [] (fun x => deepEq (.vfloat 3) x)))
    ∧ (inArray (.vfloat 3) (.vslice []) = .ok (.vbool true)
        ↔ ∃ x ∈ ([] : List GoVal), deepEq (.vfloat 3) x = true)
    ∧ (inArray (.vfloat 3) (.vstr "xs")).isOk = false :=
  c8_in_membership (.vfloat 3) (.vstr "xs") (fun _ h => GoVal.noConfusion h) []

/-- Abstract syntax of a parsed arithmetic expression: a float literal or a
named binary operator application. -/
inductive AExpr where
  | num (q : ℚ)
  | bin (op : String) (l r : AExpr)
deriving Repr

/-- Model of `math.Pow` restricted to integral exponents, which is all the
arithmetic language claims exercise (fractional exponents are irrational in
general and not representable over ℚ; they yield the junk value 0 here). -/
def powFloat (a b : ℚ) : ℚ :=
  if b.den = 1 then
    if 0 ≤ b.num then a ^ b.num.toNat
    else (a ^ (-b.num).toNat)⁻¹
  else 0

/-- Truncation toward zero, as `math.Mod` requires. -/
def truncQ (q : ℚ) : Int := if 0 ≤ q then ⌊q⌋ else ⌈q⌉

/-- Model of `math.Mod` (the NaN results on a zero divisor are collapsed to
the junk value 0; no claim divides by zero). -/
def modFloat (a b : ℚ) : ℚ := if b = 0 then 0 else a - b * (truncQ (a / b) : ℚ)

/-- The numeric operator bodies registered by the arithmetic language
(gval.go lines 333-339), dispatched by name.  The comparison operators of
that language return booleans and are not needed by the precedence claims;
unknown names yield the junk value 0.  Division is exact rational division
(Go float division agrees on the exactly-representable cases used here; no
claim divides by zero). -/
def numOpApply (op : String) (a b : ℚ) : ℚ :=
  if op == "+" then a + b
  else if op == "-" then a - b
  else if op == "*" then a * b
  else if op == "/" then a / b
  else if op == "%" then modFloat a b
  else if op == "**" then powFloat a b
  else 0

/-- Evaluation of a parsed arithmetic expression. -/
def evalA : AExpr → ℚ
  | .num q => q
  | .bin op l r => numOpApply op (evalA l) (evalA r)

/-- The operator precedence table of the base language (gval.go lines
482-517); names without a registered precedence default to 0. -/
def basePrec (op : String) : Nat :=
  if op == "??" then 0
  else if op == "||" then 20
  else if op == "&&" then 21
  else if op == "==" || op == "!=" || op == ">" || op == ">=" || op == "<" || op == "<="
       || op == "=~" || op == "!~" || op == "in" || op == "sw" || op == "co"
       || op == "ew" || op == "mw" || op == "cfa" || op == "cfm" then 40
  else if op == "^" || op == "&" || op == "|" then 60
  else if op == "<<" || op == ">>" then 90
  else if op == "+" || op == "-" then 120
  else if op == "*" || op == "/" || op == "%" then 150
  else if op == "**" then 200
  else 0

/-- Modelled from the spec: the stage-stack reduction lives in code of this
repository that is not under src (operator.go, `stageStack.push`); per spec
section 4.2 step 4, while the newly found operator precedence is less than
or equal to the precedence at the top of the stack, the top stage is popped
and combined with the operand parsed so far. -/
def reduceStages : List (AExpr × String) → AExpr → Nat → List (AExpr × String) × AExpr
  | [], e, _ => ([], e)
  | (l, op) :: rest, e, p =>
    if p ≤ basePrec op then reduceStages rest (.bin op l e) p
    else ((l, op) :: rest, e)

/-- Modelled from the spec (section 4.2 step 5): at termination the remaining
stack is fully reduced. -/
def finishStages : List (AExpr × String) → AExpr → AExpr
  | [], e => e
  | (l, op) :: rest, e => finishStages rest (.bin op l e)

/-- Modelled from the spec (section 4.2): the explicit operator-stack parse
of an infix chain; the chain is given as the first operand followed by the
(operator, next-operand) pairs in scan order. -/
def parseOpChain : List (AExpr × String) → AExpr → List (String × AExpr) → AExpr
  | st, e, [] => finishStages st e
  | st, e, (op, e2) :: t =>
    match reduceStages st e (basePrec op) with
    | (st2, e3) => parseOpChain ((e3, op) :: st2) e2 t

/-- Parse of a complete infix chain with an empty initial stage stack
(the body of `ParseExpression`, parse.go lines 15-33). -/
def parseExpressionChain (first : AExpr) (rest : List (String × AExpr)) : AExpr :=
  parseOpChain [] first rest

/-- C2 counterexample: under the base precedence table and the documented
reduce-on-less-or-equal rule, the chain `2 ** 3 ** 2` groups left, giving
`(2 ** 3) ** 2 = 64`, not 512. -/
theorem c2_power_chain_is_64_not_512 :
    evalA (parseExpressionChain (.num 2) [("**", .num 3), ("**", .num 2)]) ≠ 512 := by
  have hs : parseExpressionChain (.num 2) [("**", .num 3), ("**", .num 2)]
      = .bin "**" (.bin "**" (.num 2) (.num 3)) (.num 2) := rfl
  have h8 : powFloat 2 3 = 8 := by
    rw [powFloat]
    norm_num
    rfl
  have h64 : powFloat 8 2 = 64 := by
    rw [powFloat]
    norm_num
    rfl
  rw [hs]
  show numOpApply "**" (numOpApply "**" 2 3) 2 ≠ 512
  simp only [show ∀ a b, numOpApply "**" a b = powFloat a b from fun _ _ => rfl, h8, h64]
  norm_num

/-- C2 amended: `2 + 3 * 4` evaluates to 14, `(2 + 3) * 4` evaluates to 20
(the parenthesized group degenerates to its inner expression and enters the
outer chain as a single operand), and `2 ** 3 ** 2` evaluates to 64 by
left-associative equal-precedence chaining under the reduce-on-less-or-equal
rule. -/
theorem c2_precedence :
    evalA (parseExpressionChain (.num 2) [("+", .num 3), ("*", .num 4)]) = 14
    ∧ evalA (parseExpressionChain (parseExpressionChain (.num 2) [("+", .num 3)])
        [("*", .num 4)]) = 20
    ∧ evalA (parseExpressionChain (.num 2) [("**", .num 3), ("**", .num 2)]) = 64 := by
  have h1 : parseExpressionChain (.num 2) [("+", .num 3), ("*", .num 4)]
      = .bin "+" (.num 2) (.bin "*" (.num 3) (.num 4)) := rfl
  have h2 : parseExpressionChain (parseExpressionChain (.num 2) [("+", .num 3)])
        [("*", .num 4)]
      = .bin "*" (.bin "+" (.num 2) (.num 3)) (.num 4) := rfl
  have h3 : parseExpressionChain (.num 2) [("**", .num 3), ("**", .num 2)]
      = .bin "**" (.bin "**" (.num 2) (.num 3)) (.num 2) := rfl
  have h8 : powFloat 2 3 = 8 := by
    rw [powFloat]
    norm_num
    rfl
  have h64 : powFloat 8 2 = 64 := by
    rw [powFloat]
    norm_num
    rfl
  refine ⟨?_, ?_, ?_⟩
  · rw [h1]
    show numOpApply "+" 2 (numOpApply "*" 3 4) = 14
    simp only [show ∀ a b, numOpApply "+" a b = a + b from fun _ _ => rfl,
      show ∀ a b, numOpApply "*" a b = a * b from fun _ _ => rfl]
    norm_num
  · rw [h2]
    show numOpApply "*" (numOpApply "+" 2 3) 4 = 20
    simp only [show ∀ a b, numOpApply "+" a b = a + b from fun _ _ => rfl,
      show ∀ a b, numOpApply "*" a b = a * b from fun _ _ => rfl]
    norm_num
  · rw [h3]
    show numOpApply "**" (numOpApply "**" 2 3) 2 = 64
    simp only [show ∀ a b, numOpApply "**" a b = powFloat a b from fun _ _ => rfl, h8, h64]

/-- Modelled from the spec: an operator definition, the tagged variant of
spec section 3 (the concrete Language type lives in language.go, not under
src).  Function and operator payloads are identified by a numeric id
standing for the registered Go function value. -/
inductive OpDef where
  | constDef (v : GoVal)
  | funcDef (id : Nat)
  | unaryOpDef (id : Nat)
  | binOpDef (id : Nat) (prec : Nat)
  | postOpDef (id : Nat) (prec : Nat)
deriving Repr

/-- Modelled from the spec: a Language (named GvalLanguage here to avoid a
name clash with the ambient library) is a mapping from operator name to
definition; the registration order is kept so that later definitions
override earlier ones by exact name. -/
def GvalLanguage : Type := List (String × OpDef)

/-- Name lookup in a Language: the definition registered last for the name
wins (right-biased override). -/
def langLookup (l : GvalLanguage) (n : String) : Option OpDef :=
  match l with
  | [] => none
  | (m, d) :: t =>
    match langLookup t n with
    | some d2 => some d2
    | none => if m == n then some d else none

/-- Modelled from the spec: `NewLanguage` composes several Languages into one
flat mapping, a pure merge in which for each name the definition from the
last Language wins; no input registry is modified. -/
def NewLanguage (ls : List GvalLanguage) : GvalLanguage :=
  ls.foldr (fun a b => List.append a b) []

lemma langLookup_append (x y : GvalLanguage) (n : String) :
    langLookup (List.append x y) n
      = match langLookup y n with
        | some d => some d
        | none => langLookup x n := by
  induction x with
  | nil =>
    cases h : langLookup y n <;> simp [List.append, langLookup, h]
  | cons p t ih =>
    obtain ⟨m, d⟩ := p
    cases h : langLookup y n with
    | none =>
      rw [h] at ih
      simp only [List.cons_append, langLookup, ih, h]
    | some d2 =>
      rw [h] at ih
      simp only [List.cons_append, langLookup, ih, h]

/-- C6: Language composition is a pure right-biased merge: composing A, B, C
at once gives the same lookups as composing compose(A,B) with C
(associativity); a name registered in B resolves to the B definition in
compose(A,B) (right-bias); and composing a Language with itself gives the
same lookups as the Language alone (idempotence). -/
theorem c6_compose_lookup (A B C : GvalLanguage) (n n2 : String) (d : OpDef)
    (hB : langLookup B n2 = some d) :
    langLookup (NewLanguage [A, B, C]) n = langLookup (NewLanguage [NewLanguage [A, B], C]) n
    ∧ langLookup (NewLanguage [A, B]) n2 = some d
    ∧ langLookup (NewLanguage [A, A]) n = langLookup A n := by
  refine ⟨?_, ?_, ?_⟩
  · show langLookup (List.append A (List.append B (List.append C []))) n
        = langLookup (List.append (List.append A (List.append B [])) (List.append C [])) n
    simp only [List.append_eq, List.append_nil, List.append_assoc]
  · show langLookup (List.append A (List.append B [])) n2 = some d
    rw [langLookup_append]
    simp only [List.append_eq, List.append_nil]
    rw [hB]
  · show langLookup (List.append A (List.append A [])) n = langLookup A n
    rw [langLookup_append]
    simp only [List.append_eq, List.append_nil]
    cases h : langLookup A n <;> simp [h]

/-- C6 witness: two one-entry languages sharing the name x; composition
resolves x to the right definition. -/
theorem c6_witness :
    langLookup (NewLanguage [[("x", OpDef.constDef .vnull)],
        [("x", OpDef.constDef (.vbool true))], []]) "x"
      = langLookup (NewLanguage [NewLanguage [[("x", OpDef.constDef .vnull)],
          [("x", OpDef.constDef (.vbool true))]], []]) "x"
    ∧ langLookup (NewLanguage [[("x", OpDef.constDef .vnull)],
        [("x", OpDef.constDef (.vbool true))]]) "x"
      = some (OpDef.constDef (.vbool true))
    ∧ langLookup (NewLanguage [[("x", OpDef.constDef .vnull)],
        [("x", OpDef.constDef .vnull)]]) "x"
      = langLookup [("x", OpDef.constDef .vnull)] "x" :=
  c6_compose_lookup [("x", OpDef.constDef .vnull)] [("x", OpDef.constDef (.vbool true))]
    [] "x" "x" (OpDef.constDef (.vbool true)) rfl
